import Mathlib

/-!
Verification development for the `download_podcast` feed mirroring tool.

The Go sources are shallowly embedded:

* the streaming XML scan of `getItems` (current revision) and the older
  URL-deduplicating `getItems` revision are modelled as folds of a step
  function over a list of decoded XML tokens;
* filename derivation (`path.Base`, query stripping, the Simplecast
  episode-UUID workaround) is modelled by executable string functions;
* `escape` (Go `url.PathEscape` plus 255-byte truncation) is modelled at
  the UTF-8 byte level;
* the filesystem side effects of `downloadItem` are modelled by explicit
  state passing over a set of existing paths, with an environment of
  success/failure oracles standing in for the network and the disk.
-/

namespace DlPod

/-- One decoded XML token, as produced by the tolerant streaming decoder
(`encoding/xml` with `Strict = false`). Attributes carry their local name. -/
inductive Tok where
  | startE (name : String) (attrs : List (String × String))
  | endE (name : String)
  | chardata (s : String)
deriving DecidableEq, Repr

/-- A feed item of the current revision: `type item struct{ guid, url, title string }`. -/
structure Item where
  guid : String
  url : String
  title : String
deriving DecidableEq, Repr

/-- Scanner state of the current revision of `getItems`. -/
structure ScanState where
  items : List Item
  inGUID : Bool
  inTitle : Bool
  guid : String
  title : String
  url : String
deriving DecidableEq, Repr

/-- Initial scanner state (`var items []item; var inGUID, inTitle bool; ...`). -/
def initScan : ScanState := ⟨[], false, false, "", "", ""⟩

/-- First `url` attribute of a start element, as located by the Go loop
`for _, a := range e.Attr { if a.Name.Local == "url" { ...; break } }`. -/
def urlAttr (attrs : List (String × String)) : Option String :=
  (attrs.find? (fun a => a.1 = "url")).map (fun a => a.2)

/-- One iteration of the token loop of the current `getItems`. -/
def scanStep (s : ScanState) (t : Tok) : ScanState :=
  match t with
  | .startE n attrs =>
    if n = "item" then { s with guid := "", title := "", url := "" }
    else if n = "guid" then { s with inGUID := true }
    else if n = "title" then { s with inTitle := true }
    else if n = "media:content" ∨ n = "enclosure" then
      match urlAttr attrs with
      | some v => { s with url := v }
      | none => s
    else s
  | .endE n =>
    if n = "item" then
      if s.url = "" then s
      else
        { s with items :=
            s.items ++ [⟨if s.guid = "" then s.url else s.guid, s.url, s.title⟩] }
    else if n = "guid" then { s with inGUID := false }
    else if n = "title" then { s with inTitle := false }
    else s
  | .chardata d =>
    if s.inGUID then { s with guid := d }
    else if s.inTitle then { s with title := d }
    else s

/-- The current revision's `getItems`, applied to an already-decoded token list. -/
def getItems (toks : List Tok) : List Item :=
  (toks.foldl scanStep initScan).items

/-- A feed item of the older revision: `type item struct{ url, title string }`. -/
structure ItemV2 where
  url : String
  title : String
deriving DecidableEq, Repr

/-- Scanner state of the older revision of `getItems` (with `seenURLs`). -/
structure ScanStateV2 where
  items : List ItemV2
  seenURLs : List String
  title : String
  inTitle : Bool
deriving DecidableEq, Repr

/-- One iteration of the token loop of the older, deduplicating `getItems`. -/
def scanStepV2 (s : ScanStateV2) (t : Tok) : ScanStateV2 :=
  match t with
  | .startE n attrs =>
    if n = "media:content" ∨ n = "enclosure" then
      match urlAttr attrs with
      | some v =>
        if v ∈ s.seenURLs then s
        else { s with items := s.items ++ [⟨v, s.title⟩],
                      seenURLs := v :: s.seenURLs,
                      title := "" }
      | none => s
    else if n = "title" then { s with inTitle := true }
    else s
  | .endE n => if n = "title" then { s with inTitle := false } else s
  | .chardata d => if s.inTitle then { s with title := d } else s

/-- The older revision's `getItems`, applied to an already-decoded token list. -/
def getItemsV2 (toks : List Tok) : List ItemV2 :=
  (toks.foldl scanStepV2 ⟨[], [], "", false⟩).items

/-- Go `path.Base`: last path element after removing trailing slashes;
`"."` for the empty string, `"/"` for an all-slash string. -/
def pathBase (s : String) : String :=
  if s = "" then "."
  else
    let cs := (s.data.reverse.dropWhile (fun c => c = '/')).reverse
    if cs = [] then "/"
    else String.mk ((cs.reverse.takeWhile (fun c => c ≠ '/')).reverse)

/-- `base = base[:i]` for the first `'?'` found by `strings.IndexByte(base, '?')`. -/
def stripQuery (s : String) : String :=
  String.mk (s.data.takeWhile (fun c => c ≠ '?'))

/-- Character class `[0-9a-f]` of `episodeIDRegexp`. -/
def isHexLowerCh (c : Char) : Bool :=
  ('0' ≤ c ∧ c ≤ '9') ∨ ('a' ≤ c ∧ c ≤ 'f')

/-- Consume exactly `n` hex characters, returning them and the rest. -/
def takeHex : Nat → List Char → Option (List Char × List Char)
  | 0, cs => some ([], cs)
  | n + 1, c :: cs =>
    if isHexLowerCh c then (takeHex n cs).map (fun p => (c :: p.1, p.2)) else none
  | _ + 1, [] => none

/-- Consume a literal character. -/
def expectChar (c : Char) : List Char → Option (List Char)
  | x :: xs => if x = c then some xs else none
  | [] => none

/-- Consume a literal character sequence. -/
def dropPrefixCh : List Char → List Char → Option (List Char)
  | [], cs => some cs
  | p :: ps, c :: cs => if c = p then dropPrefixCh ps cs else none
  | _ :: _, [] => none

/-- Try to match `episodeIDRegexp` (`/episodes/<8-4-4-4-12 lowercase hex>/`)
at the head of `cs`, returning the captured UUID. -/
def matchEpisodeAt (cs : List Char) : Option String :=
  (dropPrefixCh "/episodes/".data cs).bind fun r =>
  (takeHex 8 r).bind fun p1 =>
  (expectChar '-' p1.2).bind fun r =>
  (takeHex 4 r).bind fun p2 =>
  (expectChar '-' p2.2).bind fun r =>
  (takeHex 4 r).bind fun p3 =>
  (expectChar '-' p3.2).bind fun r =>
  (takeHex 4 r).bind fun p4 =>
  (expectChar '-' p4.2).bind fun r =>
  (takeHex 12 r).bind fun p5 =>
  (expectChar '/' p5.2).map fun _ =>
    String.mk (p1.1 ++ '-' :: p2.1 ++ '-' :: p3.1 ++ '-' :: p4.1 ++ '-' :: p5.1)

/-- Leftmost match of `episodeIDRegexp` (`FindStringSubmatch`), returning the
captured episode UUID. -/
def findEpisodeID : List Char → Option String
  | [] => none
  | c :: cs =>
    match matchEpisodeAt (c :: cs) with
    | some u => some u
    | none => findEpisodeID cs

/-- The filename derivation of `downloadItem`: `path.Base` of the URL with the
query string cut off, overridden for Simplecast-style URLs by the item title
(plus `.mp3`) or, failing that, the episode UUID (plus `.mp3`). -/
def deriveBase (it : Item) : String :=
  let base := stripQuery (pathBase it.url)
  match findEpisodeID it.url.data with
  | some uuid => if it.title ≠ "" then it.title ++ ".mp3" else uuid ++ ".mp3"
  | none => base

/-- `maxFilenameLen = 255`. -/
def maxFilenameLen : Nat := 255

/-- `seenSubdir = ".seen"`. -/
def seenSubdir : String := ".seen"

/-- Go `shouldEscape(c, encodePathSegment)`: everything is escaped except
alphanumerics, the unreserved marks `- _ . ~`, and the reserved characters
`$ & + : = @` that `url.PathEscape` leaves alone in a path segment. -/
def shouldEscape (c : Nat) : Bool :=
  if (65 ≤ c ∧ c ≤ 90) ∨ (97 ≤ c ∧ c ≤ 122) ∨ (48 ≤ c ∧ c ≤ 57) then false
  else if c = 45 ∨ c = 95 ∨ c = 46 ∨ c = 126 then false
  else if c = 36 ∨ c = 38 ∨ c = 43 ∨ c = 58 ∨ c = 61 ∨ c = 64 then false
  else true

/-- Uppercase hex digit, as a byte (`upperhex` in Go's `net/url`). -/
def hexUpper (d : Nat) : Nat := if d < 10 then 48 + d else 55 + d

/-- Percent-escape a byte sequence (`url.PathEscape` body). -/
def escapeBytes (bs : List Nat) : List Nat :=
  bs.flatMap fun c =>
    if shouldEscape c then [37, hexUpper (c / 16), hexUpper (c % 16)] else [c]

/-- UTF-8 encoding of one code point, as Go string bytes. -/
def charUTF8 (n : Nat) : List Nat :=
  if n < 128 then [n]
  else if n < 2048 then [192 + n / 64, 128 + n % 64]
  else if n < 65536 then [224 + n / 4096, 128 + (n / 64) % 64, 128 + n % 64]
  else [240 + n / 262144, 128 + (n / 4096) % 64, 128 + (n / 64) % 64, 128 + n % 64]

/-- The bytes of a Go string (UTF-8). -/
def strBytes (s : String) : List Nat :=
  s.data.flatMap fun c => charUTF8 c.toNat

/-- Rebuild a string from ASCII bytes. -/
def asciiStr (bs : List Nat) : String :=
  String.mk (bs.map Char.ofNat)

/-- Go `escape`: `url.PathEscape(fn)` truncated to `maxFilenameLen` bytes. -/
def escape (fn : String) : String :=
  if (escapeBytes (strBytes fn)).length > maxFilenameLen then
    asciiStr ((escapeBytes (strBytes fn)).take maxFilenameLen)
  else asciiStr (escapeBytes (strBytes fn))

/-- Go `filepath.Ext`: the suffix starting at the final dot of the last path
element, or `""` when there is none. -/
def fileExt (s : String) : String :=
  let r := s.data.reverse
  let pre := r.takeWhile (fun c => ¬(c = '.' ∨ c = '/'))
  match r.drop pre.length with
  | c :: _ => if c = '.' then String.mk ('.' :: pre.reverse) else ""
  | [] => ""

/-- `start := base[:len(base)-len(ext)]`. -/
def preExt (base : String) : String :=
  String.mk (base.data.take (base.data.length - (fileExt base).data.length))

/-- Decimal rendering of a natural number (`strconv.Itoa` on the loop index). -/
def itoa (n : Nat) : String :=
  if n = 0 then "0"
  else String.mk (((Nat.digits 10 n).reverse).map (fun d => Char.ofNat (d + 48)))

/-- The destination-directory state: the set of paths (component lists) for
which `os.Stat` succeeds. `touch`/`os.Create` adds a path. -/
structure FS where
  files : List (List String)
deriving DecidableEq, Repr

/-- `os.Stat(p)` succeeding. -/
def FS.stat (fs : FS) (p : List String) : Bool := decide (p ∈ fs.files)

/-- `touch`/`os.Create` at `p`: the path exists afterwards. -/
def FS.touch (fs : FS) (p : List String) : FS := ⟨p :: fs.files⟩

/-- Success/failure oracles for the external effects of one `downloadItem`
call: directory creation, the HTTP fetch of an enclosure URL, `os.Create`
at a path, and the `io.Copy`/`Close` that follows it. -/
structure Env where
  mkdirOK : Bool
  fetchOK : String → Bool
  createOK : List String → Bool
  copyOK : List String → Bool

/-- Error taxonomy of one item (`NamingError` vs `DownloadError`). -/
inductive DLErr where
  | naming
  | download
deriving DecidableEq, Repr

/-- Observable outcome of one `downloadItem` call: its returned error (if
any), the destination-directory state afterwards, whether the enclosure URL
was fetched over the network, and whether a complete download was written. -/
structure Outcome where
  res : Option DLErr
  fs : FS
  fetched : Bool
  downloaded : Bool
deriving Repr

/-- Current-format seen-marker path
`filepath.Join(destDir, seenSubdir, escape(feed), escape(item.guid))`. -/
def seenPathOf (destDir feed guid : String) : List String :=
  [destDir, seenSubdir, escape feed, escape guid]

/-- The three marker paths probed by `downloadItem`, oldest-format last:
current `(feed, guid)` marker, legacy raw-URL marker, legacy basename marker. -/
def markerCands (it : Item) (destDir feed base : String) : List (List String) :=
  [seenPathOf destDir feed it.guid,
   [destDir, seenSubdir, escape it.url],
   [destDir, seenSubdir, escape base]]

/-- `filepath.Join(destDir, prefix+start+strconv.Itoa(i)+ext)`. -/
def candPath (destDir pre start ext : String) (i : Nat) : List String :=
  [destDir, pre ++ start ++ itoa i ++ ext]

/-- The suffix-probing loop `for i := 0; i >= 0; i++ { ... }`, with explicit
fuel; it stops at the first index whose candidate path does not exist. -/
def searchFree (fs : FS) (cand : Nat → List String) : Nat → Nat → Option Nat
  | 0, _ => none
  | fuel + 1, i => if fs.stat (cand i) then searchFree fs cand fuel (i + 1) else some i

/-- Destination-path resolution of `downloadItem`: `destDir/prefix+base`, or,
when that exists, the first numeric-suffix variant that does not. The fuel
`fs.files.length + 1` is enough: some candidate below it is always free. -/
def resolveDest (fs : FS) (destDir pre base : String) : List String :=
  if fs.stat [destDir, pre ++ base] then
    match searchFree fs (candPath destDir pre (preExt base) (fileExt base))
        (fs.files.length + 1) 0 with
    | some i => candPath destDir pre (preExt base) (fileExt base) i
    | none => [destDir, pre ++ base]
  else [destDir, pre ++ base]

/-- The tail of `downloadItem` once no marker was found: skip or download,
then create the seen-marker. -/
def doDownloadPhase (it : Item) (seen destPath : List String) (skipDownload : Bool)
    (env : Env) (fs : FS) : Outcome :=
  if skipDownload then
    if env.createOK seen then ⟨none, fs.touch seen, false, false⟩
    else ⟨some .download, fs, false, false⟩
  else if env.fetchOK it.url = false then ⟨some .download, fs, true, false⟩
  else if env.createOK destPath = false then ⟨some .download, fs, true, false⟩
  else if env.copyOK destPath = false then ⟨some .download, fs.touch destPath, true, false⟩
  else if env.createOK seen then ⟨none, (fs.touch destPath).touch seen, true, true⟩
  else ⟨some .download, fs.touch destPath, true, true⟩

/-- The seen-check of `downloadItem`: probe the three marker paths in order;
on a hit, log a skip and migrate the marker forward (ignoring a failure to
create it); otherwise resolve the destination and proceed. -/
def seenPhase (it : Item) (destDir feed pre : String) (skipDownload : Bool)
    (env : Env) (fs : FS) (base : String) : Outcome :=
  if (markerCands it destDir feed base).any fs.stat then
    ⟨none,
     if fs.stat (seenPathOf destDir feed it.guid) then fs
     else if env.createOK (seenPathOf destDir feed it.guid) then
       fs.touch (seenPathOf destDir feed it.guid)
     else fs,
     false, false⟩
  else
    doDownloadPhase it (seenPathOf destDir feed it.guid)
      (resolveDest fs destDir pre base) skipDownload env fs

/-- `downloadItem(item, destDir, feed, prefix, verbose, skipDownload)`;
logging (`verbose`) has no modelled effect. -/
def downloadItem (it : Item) (destDir feed pre : String) (skipDownload : Bool)
    (env : Env) (fs : FS) : Outcome :=
  if deriveBase it = "" ∨ deriveBase it = "." ∨ deriveBase it = ".." then
    ⟨some .naming, fs, false, false⟩
  else if env.mkdirOK = false then ⟨some .download, fs, false, false⟩
  else seenPhase it destDir feed pre skipDownload env fs (deriveBase it)

/-- One orchestrator invocation on one item, with its own effect oracles and
`--skip` setting. -/
structure Step where
  it : Item
  env : Env
  skip : Bool

/-- Sequential processing of items against one destination directory, the
filesystem state threaded through (`for i, item := range items { ... }`,
errors logged and skipped). -/
def runSeq (destDir feed pre : String) : List Step → FS → List Outcome
  | [], _ => []
  | s :: rest, fs =>
    let o := downloadItem s.it destDir feed pre s.skip s.env fs
    o :: runSeq destDir feed pre rest o.fs

/-- Number of complete downloads performed in a run. -/
def countDownloads (os : List Outcome) : Nat :=
  (os.filter (fun o => o.downloaded)).length

/-- Result of fetching and token-decoding the feed itself (`getItems`'s
`openURL` and `d.Token()` failure modes). -/
inductive FeedResult where
  | fetchFail
  | parseFail
  | ok (toks : List Tok)

/-- Outcome of a whole process run: whether it terminated fatally (nonzero
exit before touching any item), and the per-item results otherwise. -/
structure MainOut where
  fatal : Bool
  results : List (Option DLErr)
deriving Repr

/-- The `main` function: `-feed` is required, a feed fetch/parse failure is
fatal, and items are processed sequentially up to `-num`, item errors being
logged without affecting the exit code. -/
def mainRun (feedFlag : String) (fr : FeedResult) (dest pre : String)
    (skipFlag : Bool) (num : Int) (env : Env) (fs : FS) : MainOut :=
  if feedFlag = "" then ⟨true, []⟩
  else
    match fr with
    | .fetchFail => ⟨true, []⟩
    | .parseFail => ⟨true, []⟩
    | .ok toks =>
      let items := getItems toks
      let capped := if 0 ≤ num then items.take num.toNat else items
      ⟨false,
       (runSeq dest feedFlag pre (capped.map (fun it => ⟨it, env, skipFlag⟩)) fs).map
         (fun o => o.res)⟩

/-! ### Basic filesystem lemmas -/

theorem FS.stat_touch_iff (fs : FS) (p q : List String) :
    (fs.touch q).stat p = true ↔ p = q ∨ fs.stat p = true := by
  simp [FS.stat, FS.touch, List.mem_cons]

theorem FS.stat_touch_self (fs : FS) (p : List String) :
    (fs.touch p).stat p = true :=
  (FS.stat_touch_iff fs p p).mpr (Or.inl rfl)

theorem FS.stat_touch_of (fs : FS) (p q : List String) (h : fs.stat p = true) :
    (fs.touch q).stat p = true :=
  (FS.stat_touch_iff fs p q).mpr (Or.inr h)

theorem FS.stat_touch_ne (fs : FS) (p q : List String) (h : p ≠ q) :
    (fs.touch q).stat p = fs.stat p := by
  simp [FS.stat, FS.touch, List.mem_cons, h]

/-- Every filesystem change made by `downloadItem` only adds paths. -/
theorem downloadItem_mono (it : Item) (dd feed pre : String) (sk : Bool)
    (env : Env) (fs : FS) (p : List String) (h : fs.stat p = true) :
    (downloadItem it dd feed pre sk env fs).fs.stat p = true := by
  unfold downloadItem seenPhase doDownloadPhase
  split_ifs <;>
    first
      | exact h
      | exact FS.stat_touch_of _ _ _ h
      | exact FS.stat_touch_of _ _ _ (FS.stat_touch_of _ _ _ h)

/-- With a valid derived name and a working `MkdirAll`, `downloadItem` is the
seen-check phase. -/
theorem downloadItem_valid (it : Item) (dd feed pre : String) (sk : Bool)
    (env : Env) (fs : FS)
    (hv : ¬(deriveBase it = "" ∨ deriveBase it = "." ∨ deriveBase it = ".."))
    (hm : env.mkdirOK = true) :
    downloadItem it dd feed pre sk env fs =
      seenPhase it dd feed pre sk env fs (deriveBase it) := by
  unfold downloadItem
  rw [if_neg hv, if_neg (by simp [hm])]

/-- Behavior of the seen-check phase on a hit. -/
theorem seenPhase_found (it : Item) (dd feed pre : String) (sk : Bool)
    (env : Env) (fs : FS) (base : String)
    (h : (markerCands it dd feed base).any fs.stat = true) :
    seenPhase it dd feed pre sk env fs base =
      ⟨none,
       if fs.stat (seenPathOf dd feed it.guid) then fs
       else if env.createOK (seenPathOf dd feed it.guid) then
         fs.touch (seenPathOf dd feed it.guid)
       else fs,
       false, false⟩ := by
  unfold seenPhase
  rw [if_pos h]

/-- Behavior of the seen-check phase on a miss. -/
theorem seenPhase_notfound (it : Item) (dd feed pre : String) (sk : Bool)
    (env : Env) (fs : FS) (base : String)
    (h : (markerCands it dd feed base).any fs.stat = false) :
    seenPhase it dd feed pre sk env fs base =
      doDownloadPhase it (seenPathOf dd feed it.guid)
        (resolveDest fs dd pre base) sk env fs := by
  unfold seenPhase
  rw [if_neg (by simp [h])]

/-- If any of the three markers already exists, `downloadItem` performs no
network fetch and no download. -/
theorem marked_no_fetch (it : Item) (dd feed pre : String) (sk : Bool)
    (env : Env) (fs : FS)
    (h : ∃ p ∈ markerCands it dd feed (deriveBase it), fs.stat p = true) :
    (downloadItem it dd feed pre sk env fs).fetched = false ∧
      (downloadItem it dd feed pre sk env fs).downloaded = false := by
  have hany : (markerCands it dd feed (deriveBase it)).any fs.stat = true := by
    rcases h with ⟨p, hp, hs⟩
    exact List.any_eq_true.mpr ⟨p, hp, hs⟩
  unfold downloadItem
  split_ifs with h1 h2
  · exact ⟨rfl, rfl⟩
  · exact ⟨rfl, rfl⟩
  · rw [seenPhase_found it dd feed pre sk env fs _ hany]
    exact ⟨rfl, rfl⟩

/-- If `downloadItem` returns success, some marker exists afterwards. -/
theorem success_marker (it : Item) (dd feed pre : String) (sk : Bool)
    (env : Env) (fs : FS)
    (h : (downloadItem it dd feed pre sk env fs).res = none) :
    ∃ p ∈ markerCands it dd feed (deriveBase it),
      (downloadItem it dd feed pre sk env fs).fs.stat p = true := by
  by_cases hany : (markerCands it dd feed (deriveBase it)).any fs.stat = true
  · rcases List.any_eq_true.mp hany with ⟨p, hp, hs⟩
    exact ⟨p, hp, downloadItem_mono it dd feed pre sk env fs p hs⟩
  · refine ⟨seenPathOf dd feed it.guid, List.mem_cons_self _ _, ?_⟩
    unfold downloadItem at h ⊢
    split_ifs at h ⊢ with h1 h2
    rw [seenPhase_notfound it dd feed pre sk env fs _
      (Bool.eq_false_iff.mpr hany)] at h ⊢
    unfold doDownloadPhase at h ⊢
    split_ifs at h ⊢ <;> exact FS.stat_touch_self _ _

/-- A completed download followed by successful marker creation leaves the
current-format marker in place. -/
theorem downloaded_marker (it : Item) (dd feed pre : String) (sk : Bool)
    (env : Env) (fs : FS)
    (hc : env.createOK (seenPathOf dd feed it.guid) = true)
    (h : (downloadItem it dd feed pre sk env fs).downloaded = true) :
    (downloadItem it dd feed pre sk env fs).fs.stat
      (seenPathOf dd feed it.guid) = true := by
  unfold downloadItem at h ⊢
  split_ifs at h ⊢ with h1 h2
  by_cases hany : (markerCands it dd feed (deriveBase it)).any fs.stat = true
  · rw [seenPhase_found it dd feed pre sk env fs _ hany] at h
    exact absurd h (by simp)
  · rw [seenPhase_notfound it dd feed pre sk env fs _
      (Bool.eq_false_iff.mpr hany)] at h ⊢
    unfold doDownloadPhase at h ⊢
    split_ifs at h ⊢
    exact FS.stat_touch_self _ _

/-! ### Decimal rendering is injective, and the suffix search always lands
on a fresh path -/

theorem digitChar_inj : ∀ d < 10, ∀ e < 10,
    Char.ofNat (d + 48) = Char.ofNat (e + 48) → d = e := by decide

theorem map_digitChar_inj : ∀ l1 l2 : List Nat, (∀ x ∈ l1, x < 10) →
    (∀ x ∈ l2, x < 10) →
    l1.map (fun d => Char.ofNat (d + 48)) = l2.map (fun d => Char.ofNat (d + 48)) →
    l1 = l2 := by
  intro l1
  induction l1 with
  | nil => intro l2 _ _ h; cases l2 <;> simp_all
  | cons a l ih =>
    intro l2 h1 h2 h
    cases l2 with
    | nil => simp_all
    | cons b m =>
      simp only [List.map_cons, List.cons.injEq] at h
      have hab : a = b :=
        digitChar_inj a (h1 a (List.mem_cons_self a l)) b
          (h2 b (List.mem_cons_self b m)) h.1
      have := ih m (fun x hx => h1 x (List.mem_cons_of_mem a hx))
        (fun x hx => h2 x (List.mem_cons_of_mem b hx)) h.2
      simp [hab, this]

theorem itoa_inj : Function.Injective itoa := by
  intro a b h
  unfold itoa at h
  split_ifs at h with ha hb hb
  · omega
  · exfalso
    have hd : (Nat.digits 10 b).reverse.map (fun d => Char.ofNat (d + 48)) =
        [Char.ofNat 48] := by
      have := congrArg String.data h
      simpa using this.symm
    have : (Nat.digits 10 b).reverse = [0] :=
      map_digitChar_inj _ [0]
        (by intro x hx; exact Nat.digits_lt_base (by norm_num)
              (List.mem_reverse.mp hx))
        (by simp) hd
    have hb0 : Nat.digits 10 b = [0] := by
      have := congrArg List.reverse this
      simpa using this
    have := Nat.ofDigits_digits 10 b
    rw [hb0] at this
    simp [Nat.ofDigits] at this
    omega
  · exfalso
    have hd : (Nat.digits 10 a).reverse.map (fun d => Char.ofNat (d + 48)) =
        [Char.ofNat 48] := by
      have := congrArg String.data h
      simpa using this
    have : (Nat.digits 10 a).reverse = [0] :=
      map_digitChar_inj _ [0]
        (by intro x hx; exact Nat.digits_lt_base (by norm_num)
              (List.mem_reverse.mp hx))
        (by simp) hd
    have ha0 : Nat.digits 10 a = [0] := by
      have := congrArg List.reverse this
      simpa using this
    have := Nat.ofDigits_digits 10 a
    rw [ha0] at this
    simp [Nat.ofDigits] at this
    omega
  · have hd := congrArg String.data h
    simp only [String.data] at hd
    have := map_digitChar_inj _ _
      (by intro x hx; exact Nat.digits_lt_base (by norm_num)
            (List.mem_reverse.mp hx))
      (by intro x hx; exact Nat.digits_lt_base (by norm_num)
            (List.mem_reverse.mp hx)) hd
    have := congrArg List.reverse this
    simp only [List.reverse_reverse] at this
    exact Nat.digits_inj_iff.mp this

theorem str_append_data (a b : String) : (a ++ b).data = a.data ++ b.data := by
  cases a; cases b; rfl

theorem str_append_cancel_left {a x y : String} (h : a ++ x = a ++ y) : x = y := by
  have hd := congrArg String.data h
  rw [str_append_data, str_append_data] at hd
  exact String.ext (List.append_cancel_left hd)

theorem str_append_cancel_right {a x y : String} (h : x ++ a = y ++ a) : x = y := by
  have hd := congrArg String.data h
  rw [str_append_data, str_append_data] at hd
  exact String.ext (List.append_cancel_right hd)

theorem candPath_inj (destDir pre start ext : String) :
    Function.Injective (candPath destDir pre start ext) := by
  intro i j h
  simp only [candPath, List.cons.injEq, and_true, true_and] at h
  exact itoa_inj (str_append_cancel_left (str_append_cancel_right h))

/-- Pigeonhole: among the first `n + 1` candidate paths of an injective
candidate family, one is missing from a file list of length `n`. -/
theorem exists_free_cand (fs : FS) (cand : Nat → List String)
    (hinj : Function.Injective cand) :
    ∃ k, k ≤ fs.files.length ∧ fs.stat (cand k) = false := by
  by_contra hcon
  push_neg at hcon
  have hall : ∀ k, k ≤ fs.files.length → cand k ∈ fs.files := by
    intro k hk
    have := hcon k hk
    have : fs.stat (cand k) = true := by
      cases h : fs.stat (cand k)
      · exact absurd h this
      · rfl
    simpa [FS.stat] using this
  have hsub : (Finset.range (fs.files.length + 1)).image cand ⊆
      fs.files.toFinset := by
    intro p hp
    rcases Finset.mem_image.mp hp with ⟨k, hk, rfl⟩
    exact List.mem_toFinset.mpr (hall k (Nat.lt_succ_iff.mp (Finset.mem_range.mp hk)))
  have h1 : ((Finset.range (fs.files.length + 1)).image cand).card =
      fs.files.length + 1 := by
    rw [Finset.card_image_of_injective _ hinj, Finset.card_range]
  have h2 := Finset.card_le_card hsub
  have h3 := fs.files.toFinset_card_le
  omega

theorem searchFree_spec (fs : FS) (cand : Nat → List String) :
    ∀ fuel i j, searchFree fs cand fuel i = some j →
      fs.stat (cand j) = false ∧ i ≤ j ∧
        ∀ k, i ≤ k → k < j → fs.stat (cand k) = true := by
  intro fuel
  induction fuel with
  | zero => intro i j h; simp [searchFree] at h
  | succ fuel ih =>
    intro i j h
    unfold searchFree at h
    split_ifs at h with hs
    · rcases ih (i + 1) j h with ⟨h1, h2, h3⟩
      refine ⟨h1, by omega, ?_⟩
      intro k hk1 hk2
      rcases Nat.eq_or_lt_of_le hk1 with rfl | hlt
      · exact hs
      · exact h3 k hlt hk2
    · cases h
      exact ⟨Bool.eq_false_iff.mpr hs, le_refl _, fun k hk1 hk2 => absurd hk1 (by omega)⟩

theorem searchFree_isSome (fs : FS) (cand : Nat → List String) :
    ∀ fuel i, (∃ k, i ≤ k ∧ k < i + fuel ∧ fs.stat (cand k) = false) →
      (searchFree fs cand fuel i).isSome = true := by
  intro fuel
  induction fuel with
  | zero => intro i ⟨k, h1, h2, _⟩; omega
  | succ fuel ih =>
    intro i ⟨k, h1, h2, h3⟩
    unfold searchFree
    split_ifs with hs
    · refine ih (i + 1) ⟨k, ?_, by omega, h3⟩
      rcases Nat.eq_or_lt_of_le h1 with rfl | hlt
      · rw [hs] at h3; cases h3
      · omega
    · rfl

/-- The resolved destination path never points at an existing file. -/
theorem resolveDest_fresh (fs : FS) (destDir pre base : String) :
    fs.stat (resolveDest fs destDir pre base) = false := by
  unfold resolveDest
  split_ifs with h0
  · rcases exists_free_cand fs (candPath destDir pre (preExt base) (fileExt base))
        (candPath_inj _ _ _ _) with ⟨k, hk, hfree⟩
    have hsome := searchFree_isSome fs
        (candPath destDir pre (preExt base) (fileExt base))
        (fs.files.length + 1) 0 ⟨k, by omega, by omega, hfree⟩
    match hmatch : searchFree fs (candPath destDir pre (preExt base) (fileExt base))
        (fs.files.length + 1) 0 with
    | some j =>
      simp only [hmatch]
      exact (searchFree_spec fs _ _ _ _ hmatch).1
    | none => rw [hmatch] at hsome; cases hsome
  · exact Bool.eq_false_iff.mpr h0

/-- When the initial path collides, the result is the candidate with the
least free numeric suffix. -/
theorem resolveDest_least (fs : FS) (destDir pre base : String)
    (h0 : fs.stat [destDir, pre ++ base] = true) :
    ∃ i, resolveDest fs destDir pre base =
        candPath destDir pre (preExt base) (fileExt base) i ∧
      fs.stat (candPath destDir pre (preExt base) (fileExt base) i) = false ∧
      ∀ j, j < i →
        fs.stat (candPath destDir pre (preExt base) (fileExt base) j) = true := by
  unfold resolveDest
  rw [if_pos h0]
  rcases exists_free_cand fs (candPath destDir pre (preExt base) (fileExt base))
      (candPath_inj _ _ _ _) with ⟨k, hk, hfree⟩
  have hsome := searchFree_isSome fs
      (candPath destDir pre (preExt base) (fileExt base))
      (fs.files.length + 1) 0 ⟨k, by omega, by omega, hfree⟩
  match hmatch : searchFree fs (candPath destDir pre (preExt base) (fileExt base))
      (fs.files.length + 1) 0 with
  | some j =>
    rcases searchFree_spec fs _ _ _ _ hmatch with ⟨h1, _, h3⟩
    exact ⟨j, rfl, h1, fun m hm => h3 m (Nat.zero_le m) hm⟩
  | none => rw [hmatch] at hsome; cases hsome

/-! ### Sequencing lemmas -/

theorem countDownloads_cons (o : Outcome) (os : List Outcome) :
    countDownloads (o :: os) =
      (if o.downloaded = true then 1 else 0) + countDownloads os := by
  simp only [countDownloads, List.filter_cons]
  split_ifs <;> simp [Nat.add_comm]

theorem runSeq_length (dd feed pre : String) :
    ∀ (steps : List Step) (fs : FS),
      (runSeq dd feed pre steps fs).length = steps.length := by
  intro steps
  induction steps with
  | nil => intro fs; rfl
  | cons s rest ih => intro fs; simp [runSeq, ih]

/-- Once the current-format marker exists, a whole run of further invocations
for items with that guid performs no fetch and no download. -/
theorem runSeq_no_download_of_marked (dd feed pre g : String) :
    ∀ (steps : List Step) (fs : FS),
      (∀ s ∈ steps, s.it.guid = g) →
      fs.stat (seenPathOf dd feed g) = true →
      countDownloads (runSeq dd feed pre steps fs) = 0 ∧
        ∀ o ∈ runSeq dd feed pre steps fs, o.fetched = false := by
  intro steps
  induction steps with
  | nil => intro fs _ _; exact ⟨rfl, by simp [runSeq]⟩
  | cons s rest ih =>
    intro fs hg hm
    have hgs : s.it.guid = g := hg s (List.mem_cons_self s rest)
    have hseen : seenPathOf dd feed s.it.guid = seenPathOf dd feed g := by rw [hgs]
    have hmem : fs.stat (seenPathOf dd feed s.it.guid) = true := by rw [hseen]; exact hm
    have hnf := marked_no_fetch s.it dd feed pre s.skip s.env fs
      ⟨seenPathOf dd feed s.it.guid, List.mem_cons_self _ _, hmem⟩
    have hmono := downloadItem_mono s.it dd feed pre s.skip s.env fs
      (seenPathOf dd feed g) hm
    have hrest := ih (downloadItem s.it dd feed pre s.skip s.env fs).fs
      (fun x hx => hg x (List.mem_cons_of_mem s hx)) hmono
    constructor
    · simp only [runSeq, countDownloads_cons, hnf.2, hrest.1]
      simp
    · intro o ho
      simp only [runSeq, List.mem_cons] at ho
      rcases ho with rfl | ho
      · exact hnf.1
      · exact hrest.2 o ho

/-- As long as creating the current-format marker works, any threaded
sequence of invocations for one `(feed, guid)` pair downloads at most once. -/
theorem runSeq_at_most_one_download (dd feed pre g : String) :
    ∀ (steps : List Step) (fs : FS),
      (∀ s ∈ steps, s.it.guid = g ∧
        s.env.createOK (seenPathOf dd feed g) = true) →
      countDownloads (runSeq dd feed pre steps fs) ≤ 1 := by
  intro steps
  induction steps with
  | nil => intro fs _; simp [runSeq, countDownloads]
  | cons s rest ih =>
    intro fs h
    have hs := h s (List.mem_cons_self s rest)
    have hrest : ∀ x ∈ rest, x.it.guid = g ∧
        x.env.createOK (seenPathOf dd feed g) = true :=
      fun x hx => h x (List.mem_cons_of_mem s hx)
    simp only [runSeq, countDownloads_cons]
    cases hd : (downloadItem s.it dd feed pre s.skip s.env fs).downloaded with
    | false =>
      simpa using ih (downloadItem s.it dd feed pre s.skip s.env fs).fs hrest
    | true =>
      have hc : s.env.createOK (seenPathOf dd feed s.it.guid) = true := by
        rw [hs.1]; exact hs.2
      have hmk := downloaded_marker s.it dd feed pre s.skip s.env fs hc hd
      rw [hs.1] at hmk
      have hz := (runSeq_no_download_of_marked dd feed pre g rest
        (downloadItem s.it dd feed pre s.skip s.env fs).fs
        (fun x hx => (hrest x hx).1) hmk).1
      simp [hz]

/-! ### Branch behavior of the download phase -/

theorem resolveDest_length (fs : FS) (dd pre base : String) :
    (resolveDest fs dd pre base).length = 2 := by
  unfold resolveDest
  split_ifs
  · split <;> rfl
  · rfl

theorem seen_ne_dest (dd feed g : String) (fs : FS) (pre base : String) :
    seenPathOf dd feed g ≠ resolveDest fs dd pre base := by
  intro h
  have := congrArg List.length h
  rw [resolveDest_length] at this
  simp [seenPathOf] at this

theorem ddp_skip (it : Item) (seen dest : List String) (env : Env) (fs : FS) :
    doDownloadPhase it seen dest true env fs =
      if env.createOK seen then ⟨none, fs.touch seen, false, false⟩
      else ⟨some .download, fs, false, false⟩ := by
  simp [doDownloadPhase]

theorem ddp_fetchfail (it : Item) (seen dest : List String) (env : Env) (fs : FS)
    (h : env.fetchOK it.url = false) :
    doDownloadPhase it seen dest false env fs = ⟨some .download, fs, true, false⟩ := by
  simp [doDownloadPhase, h]

theorem ddp_createfail (it : Item) (seen dest : List String) (env : Env) (fs : FS)
    (h1 : env.fetchOK it.url = true) (h2 : env.createOK dest = false) :
    doDownloadPhase it seen dest false env fs = ⟨some .download, fs, true, false⟩ := by
  simp [doDownloadPhase, h1, h2]

theorem ddp_copyfail (it : Item) (seen dest : List String) (env : Env) (fs : FS)
    (h1 : env.fetchOK it.url = true) (h2 : env.createOK dest = true)
    (h3 : env.copyOK dest = false) :
    doDownloadPhase it seen dest false env fs =
      ⟨some .download, fs.touch dest, true, false⟩ := by
  simp [doDownloadPhase, h1, h2, h3]

theorem ddp_allok (it : Item) (seen dest : List String) (env : Env) (fs : FS)
    (h1 : env.fetchOK it.url = true) (h2 : env.createOK dest = true)
    (h3 : env.copyOK dest = true) (h4 : env.createOK seen = true) :
    doDownloadPhase it seen dest false env fs =
      ⟨none, (fs.touch dest).touch seen, true, true⟩ := by
  simp [doDownloadPhase, h1, h2, h3, h4]

theorem ddp_markerfail (it : Item) (seen dest : List String) (env : Env) (fs : FS)
    (h1 : env.fetchOK it.url = true) (h2 : env.createOK dest = true)
    (h3 : env.copyOK dest = true) (h4 : env.createOK seen = false) :
    doDownloadPhase it seen dest false env fs =
      ⟨some .download, fs.touch dest, true, true⟩ := by
  simp [doDownloadPhase, h1, h2, h3, h4]

/-! ### Scanner invariants -/

/-- After the seen-check phase the result error is never a naming error. -/
theorem seenPhase_res_not_naming (it : Item) (dd feed pre : String) (sk : Bool)
    (env : Env) (fs : FS) (base : String) :
    (seenPhase it dd feed pre sk env fs base).res ≠ some DLErr.naming := by
  unfold seenPhase doDownloadPhase
  split_ifs <;> simp

/-- Invariant of the older scanner: emitted URLs are distinct and recorded. -/
def InvV2 (s : ScanStateV2) : Prop :=
  (s.items.map ItemV2.url).Nodup ∧ ∀ i ∈ s.items, i.url ∈ s.seenURLs

theorem stepV2_inv (s : ScanStateV2) (t : Tok) (h : InvV2 s) :
    InvV2 (scanStepV2 s t) := by
  have hkeep : ∀ st : ScanStateV2, st.items = s.items → st.seenURLs = s.seenURLs →
      InvV2 st := by
    intro st h1 h2
    refine ⟨?_, ?_⟩
    · rw [h1]; exact h.1
    · rw [h1, h2]; exact h.2
  cases t with
  | startE n attrs =>
    simp only [scanStepV2]
    split_ifs with h1 h2
    · cases hu : urlAttr attrs with
      | none => simp only [hu]; exact h
      | some v =>
        simp only [hu]
        split_ifs with hmem
        · exact h
        · refine ⟨?_, ?_⟩
          · show (List.map ItemV2.url (s.items ++ [⟨v, s.title⟩])).Nodup
            rw [List.map_append]
            refine List.Nodup.append h.1 (by simp) ?_
            intro x hx hx'
            simp only [List.map_cons, List.map_nil, List.mem_singleton] at hx'
            subst hx'
            rcases List.mem_map.mp hx with ⟨i, hi, hiu⟩
            exact hmem (hiu ▸ h.2 i hi)
          · show ∀ i ∈ s.items ++ [⟨v, s.title⟩], i.url ∈ v :: s.seenURLs
            intro i hi
            rcases List.mem_append.mp hi with hi | hi
            · exact List.mem_cons_of_mem _ (h.2 i hi)
            · simp only [List.mem_singleton] at hi
              subst hi
              exact List.mem_cons_self _ _
    · exact hkeep _ rfl rfl
    · exact hkeep _ rfl rfl
  | endE n =>
    simp only [scanStepV2]
    split_ifs <;> exact hkeep _ rfl rfl
  | chardata d =>
    simp only [scanStepV2]
    split_ifs <;> exact hkeep _ rfl rfl

theorem foldV2_inv : ∀ (toks : List Tok) (s : ScanStateV2),
    InvV2 s → InvV2 (toks.foldl scanStepV2 s) := by
  intro toks
  induction toks with
  | nil => intro s h; exact h
  | cons t rest ih => intro s h; exact ih _ (stepV2_inv s t h)

theorem asciiStr_length (bs : List Nat) : (asciiStr bs).length = bs.length := by
  simp [asciiStr, String.length]

/-! ### Concrete fixtures used by witnesses -/

/-- A feed with two item containers sharing one enclosure URL. -/
def c4Toks : List Tok :=
  [.startE "item" [], .startE "title" [], .chardata "t1", .endE "title",
   .startE "enclosure" [("url", "u")], .endE "item",
   .startE "item" [], .startE "title" [], .chardata "t2", .endE "title",
   .startE "enclosure" [("url", "u")], .endE "item"]

/-- A flat feed: titles and enclosures as siblings, no item containers. -/
def c5Toks : List Tok :=
  [.startE "title" [], .chardata "t1", .endE "title",
   .startE "enclosure" [("url", "u1")],
   .startE "title" [], .chardata "t2", .endE "title",
   .startE "enclosure" [("url", "u2")]]

/-- A feed exercising guid capture, an item without a URL, and guid fallback. -/
def c6Toks : List Tok :=
  [.startE "item" [], .startE "guid" [], .chardata "gX", .endE "guid",
   .startE "title" [], .chardata "T1", .endE "title",
   .startE "enclosure" [("url", "u1")], .endE "item",
   .startE "item" [], .startE "title" [], .chardata "T2", .endE "title",
   .endE "item",
   .startE "item" [], .startE "media:content" [("url", "u3")], .endE "item"]

/-- The Simplecast-style URL quoted in the source comment. -/
def podtracURL : String :=
  "https://dts.podtrac.com/redirect.mp3/nyt.simplecastaudio.com/521189a6-a4f6-404d-85cf-455a989a10a4/episodes/4a49fb56-5d6d-4800-8b83-72047d6b81e7/audio/128/default.mp3?aid=rss_feed&awCollectionId=521189a6-a4f6-404d-85cf-455a989a10a4&awEpisodeId=4a49fb56-5d6d-4800-8b83-72047d6b81e7&feed=xl36XBC2"

/-- 256 `a`s: escapes to itself, truncated to 255 `a`s. -/
def guidA : String := String.mk (List.replicate 256 'a')

/-- 255 `a`s followed by `b`: also truncated to 255 `a`s. -/
def guidB : String := String.mk (List.replicate 255 'a' ++ ['b'])

/-! ### Concrete fixtures used by witnesses -/

/-- An environment in which every external effect succeeds. -/
def envAll : Env := ⟨true, fun _ => true, fun _ => true, fun _ => true⟩

/-- An environment in which enclosure fetches fail and everything else works. -/
def envNoFetch : Env := ⟨true, fun _ => false, fun _ => true, fun _ => true⟩

/-- A sample item. -/
def itW : Item := ⟨"g1", "u1", "T"⟩

/-! ### Claim theorems -/

/-- C1: for every `(feed, guid)` pair, at most one download is performed by
the Orchestrator across any number of invocations against the same
destination directory (assuming the ledger filesystem accepts the marker and
is not externally cleared); in particular, once an invocation for an item
returns success, any later invocation for the same item performs no byte
transfer at all. -/
theorem C1_at_most_once (dd feed pre g : String) (steps : List Step) (fs : FS)
    (h : ∀ s ∈ steps, s.it.guid = g ∧
      s.env.createOK (seenPathOf dd feed g) = true) :
    countDownloads (runSeq dd feed pre steps fs) ≤ 1 ∧
    ∀ (it : Item) (sk sk' : Bool) (env env' : Env),
      (downloadItem it dd feed pre sk env fs).res = none →
      (downloadItem it dd feed pre sk' env'
          (downloadItem it dd feed pre sk env fs).fs).fetched = false ∧
      (downloadItem it dd feed pre sk' env'
          (downloadItem it dd feed pre sk env fs).fs).downloaded = false := by
  constructor
  · exact runSeq_at_most_one_download dd feed pre g steps fs h
  · intro it sk sk' env env' hres
    rcases success_marker it dd feed pre sk env fs hres with ⟨p, hp, hstat⟩
    exact marked_no_fetch it dd feed pre sk' env'
      (downloadItem it dd feed pre sk env fs).fs ⟨p, hp, hstat⟩

theorem C1_witness :
    countDownloads (runSeq "d" "f" ""
      [⟨itW, envAll, false⟩, ⟨itW, envAll, false⟩] ⟨[]⟩) ≤ 1 ∧
    (downloadItem itW "d" "f" "" false envAll
        (downloadItem itW "d" "f" "" false envAll ⟨[]⟩).fs).fetched = false :=
  ⟨(C1_at_most_once "d" "f" "" "g1"
      [⟨itW, envAll, false⟩, ⟨itW, envAll, false⟩] ⟨[]⟩ (by decide)).1,
   ((C1_at_most_once "d" "f" "" "g1"
      [⟨itW, envAll, false⟩, ⟨itW, envAll, false⟩] ⟨[]⟩ (by decide)).2
      itW false false envAll envAll (by decide)).1⟩

/-- C2: for an item with a valid derived name and a working `MkdirAll`, the
marker probe list is, in order, the current `(feed, guid)` marker, the legacy
raw-URL marker, and the legacy basename marker; if any of them exists the
item succeeds with no fetch and no download, the state is unchanged when the
current-format marker already existed, and otherwise the current-format
marker is created (forward migration) before returning success; if none
exists (and `--skip` is not set) the enclosure is fetched. -/
theorem C2_marker_check (it : Item) (dd feed pre : String) (sk : Bool)
    (env : Env) (fs : FS)
    (hv : ¬(deriveBase it = "" ∨ deriveBase it = "." ∨ deriveBase it = ".."))
    (hm : env.mkdirOK = true) :
    (markerCands it dd feed (deriveBase it) =
      [seenPathOf dd feed it.guid,
       [dd, seenSubdir, escape it.url],
       [dd, seenSubdir, escape (deriveBase it)]]) ∧
    ((markerCands it dd feed (deriveBase it)).any fs.stat = true →
      (downloadItem it dd feed pre sk env fs).res = none ∧
      (downloadItem it dd feed pre sk env fs).fetched = false ∧
      (downloadItem it dd feed pre sk env fs).downloaded = false ∧
      (fs.stat (seenPathOf dd feed it.guid) = true →
        (downloadItem it dd feed pre sk env fs).fs = fs) ∧
      (fs.stat (seenPathOf dd feed it.guid) = false →
        env.createOK (seenPathOf dd feed it.guid) = true →
        (downloadItem it dd feed pre sk env fs).fs =
          fs.touch (seenPathOf dd feed it.guid))) ∧
    ((markerCands it dd feed (deriveBase it)).any fs.stat = false → sk = false →
      (downloadItem it dd feed pre sk env fs).fetched = true) := by
  rw [downloadItem_valid it dd feed pre sk env fs hv hm]
  refine ⟨rfl, ?_, ?_⟩
  · intro hany
    rw [seenPhase_found it dd feed pre sk env fs _ hany]
    refine ⟨rfl, rfl, rfl, ?_, ?_⟩
    · intro h; simp [h]
    · intro h hc; simp [h, hc]
  · intro hany hsk
    rw [hsk, seenPhase_notfound it dd feed pre false env fs _ hany]
    unfold doDownloadPhase
    split_ifs <;> first | rfl | contradiction

theorem C2_witness :
    (downloadItem itW "d" "f" "" false envAll
      ⟨[[ "d", seenSubdir, escape "u1"]]⟩).res = none ∧
    (downloadItem itW "d" "f" "" false envAll
      ⟨[[ "d", seenSubdir, escape "u1"]]⟩).fetched = false ∧
    (downloadItem itW "d" "f" "" false envAll
        ⟨[[ "d", seenSubdir, escape "u1"]]⟩).fs =
      FS.touch ⟨[[ "d", seenSubdir, escape "u1"]]⟩ (seenPathOf "d" "f" "g1") := by
  have h := C2_marker_check itW "d" "f" "" false envAll
    ⟨[[ "d", seenSubdir, escape "u1"]]⟩ (by decide) (by decide)
  rcases h.2.1 (by decide) with ⟨h1, h2, _, _, h5⟩
  exact ⟨h1, h2, h5 (by decide) (by decide)⟩

/-- C3: for an item none of whose markers exist: a fetch or write failure
yields `DownloadError` and does not create the seen-marker; a successful
download, or `--skip` (which performs no fetch), creates the seen-marker,
and a failure to create it is itself a `DownloadError`. -/
theorem C3_failure_handling (it : Item) (dd feed pre : String) (env : Env) (fs : FS)
    (hv : ¬(deriveBase it = "" ∨ deriveBase it = "." ∨ deriveBase it = ".."))
    (hm : env.mkdirOK = true)
    (hun : (markerCands it dd feed (deriveBase it)).any fs.stat = false) :
    ((env.fetchOK it.url = false ∨
        env.createOK (resolveDest fs dd pre (deriveBase it)) = false ∨
        env.copyOK (resolveDest fs dd pre (deriveBase it)) = false) →
      (downloadItem it dd feed pre false env fs).res = some DLErr.download ∧
      (downloadItem it dd feed pre false env fs).fs.stat
        (seenPathOf dd feed it.guid) = false) ∧
    (env.fetchOK it.url = true →
      env.createOK (resolveDest fs dd pre (deriveBase it)) = true →
      env.copyOK (resolveDest fs dd pre (deriveBase it)) = true →
      (env.createOK (seenPathOf dd feed it.guid) = true →
        (downloadItem it dd feed pre false env fs).res = none ∧
        (downloadItem it dd feed pre false env fs).downloaded = true ∧
        (downloadItem it dd feed pre false env fs).fs.stat
          (seenPathOf dd feed it.guid) = true) ∧
      (env.createOK (seenPathOf dd feed it.guid) = false →
        (downloadItem it dd feed pre false env fs).res = some DLErr.download ∧
        (downloadItem it dd feed pre false env fs).fs.stat
          (seenPathOf dd feed it.guid) = false)) ∧
    ((downloadItem it dd feed pre true env fs).fetched = false ∧
      (env.createOK (seenPathOf dd feed it.guid) = true →
        (downloadItem it dd feed pre true env fs).res = none ∧
        (downloadItem it dd feed pre true env fs).fs.stat
          (seenPathOf dd feed it.guid) = true) ∧
      (env.createOK (seenPathOf dd feed it.guid) = false →
        (downloadItem it dd feed pre true env fs).res = some DLErr.download ∧
        (downloadItem it dd feed pre true env fs).fs = fs)) := by
  have hseen0 : fs.stat (seenPathOf dd feed it.guid) = false := by
    have := List.any_eq_false.mp hun (seenPathOf dd feed it.guid)
      (List.mem_cons_self _ _)
    simpa using this
  have hne := seen_ne_dest dd feed it.guid fs pre (deriveBase it)
  rw [downloadItem_valid it dd feed pre false env fs hv hm,
    downloadItem_valid it dd feed pre true env fs hv hm,
    seenPhase_notfound it dd feed pre false env fs _ hun,
    seenPhase_notfound it dd feed pre true env fs _ hun]
  refine ⟨?_, ?_, ?_⟩
  · intro hfail
    rcases hfail with hf | hf | hf
    · rw [ddp_fetchfail it _ _ env fs hf]
      exact ⟨rfl, hseen0⟩
    · cases h1 : env.fetchOK it.url with
      | false =>
        rw [ddp_fetchfail it _ _ env fs h1]
        exact ⟨rfl, hseen0⟩
      | true =>
        rw [ddp_createfail it _ _ env fs h1 hf]
        exact ⟨rfl, hseen0⟩
    · cases h1 : env.fetchOK it.url with
      | false =>
        rw [ddp_fetchfail it _ _ env fs h1]
        exact ⟨rfl, hseen0⟩
      | true =>
        cases h2 : env.createOK (resolveDest fs dd pre (deriveBase it)) with
        | false =>
          rw [ddp_createfail it _ _ env fs h1 h2]
          exact ⟨rfl, hseen0⟩
        | true =>
          rw [ddp_copyfail it _ _ env fs h1 h2 hf]
          refine ⟨rfl, ?_⟩
          show (fs.touch (resolveDest fs dd pre (deriveBase it))).stat
            (seenPathOf dd feed it.guid) = false
          rw [FS.stat_touch_ne _ _ _ hne]
          exact hseen0
  · intro h1 h2 h3
    constructor
    · intro h4
      rw [ddp_allok it _ _ env fs h1 h2 h3 h4]
      exact ⟨rfl, rfl, FS.stat_touch_self _ _⟩
    · intro h4
      rw [ddp_markerfail it _ _ env fs h1 h2 h3 h4]
      refine ⟨rfl, ?_⟩
      show (fs.touch (resolveDest fs dd pre (deriveBase it))).stat
        (seenPathOf dd feed it.guid) = false
      rw [FS.stat_touch_ne _ _ _ hne]
      exact hseen0
  · rw [ddp_skip it _ _ env fs]
    refine ⟨?_, ?_, ?_⟩
    · split_ifs <;> rfl
    · intro h4
      rw [if_pos h4]
      exact ⟨rfl, FS.stat_touch_self _ _⟩
    · intro h4
      rw [if_neg (by simp [h4])]
      exact ⟨rfl, rfl⟩

theorem C3_witness :
    (downloadItem itW "d" "f" "" false envNoFetch ⟨[]⟩).res = some DLErr.download ∧
    (downloadItem itW "d" "f" "" false envNoFetch ⟨[]⟩).fs.stat
      (seenPathOf "d" "f" "g1") = false ∧
    (downloadItem itW "d" "f" "" true envAll ⟨[]⟩).fetched = false ∧
    (downloadItem itW "d" "f" "" true envAll ⟨[]⟩).res = none := by
  have h3 := C3_failure_handling itW "d" "f" "" envNoFetch ⟨[]⟩
    (by decide) (by decide) (by decide)
  have h3' := C3_failure_handling itW "d" "f" "" envAll ⟨[]⟩
    (by decide) (by decide) (by decide)
  rcases h3.1 (Or.inl (by decide)) with ⟨ha, hb⟩
  exact ⟨ha, hb, h3'.2.2.1, (h3'.2.2.2.1 (by decide)).1⟩

/-- C8: the resolved destination path never points at an existing file; when
the initial path `destDir/prefix+base` exists, the result is the candidate
with the least free numeric suffix inserted before the extension (suffixes
`0, 1, 2, ...` tried in order); concretely, with `dest/ep1.mp3` present and
`dest/ep10.mp3` free, the item is written to `dest/ep10.mp3`. -/
theorem C8_collision_resolution :
    (∀ (fs : FS) (destDir pre base : String),
      fs.stat (resolveDest fs destDir pre base) = false) ∧
    (∀ (fs : FS) (destDir pre base : String),
      fs.stat [destDir, pre ++ base] = true →
      ∃ i, resolveDest fs destDir pre base =
          candPath destDir pre (preExt base) (fileExt base) i ∧
        fs.stat (candPath destDir pre (preExt base) (fileExt base) i) = false ∧
        ∀ j, j < i →
          fs.stat (candPath destDir pre (preExt base) (fileExt base) j) = true) ∧
    resolveDest ⟨[["dest", "ep1.mp3"]]⟩ "dest" "" "ep1.mp3" =
      ["dest", "ep10.mp3"] :=
  ⟨resolveDest_fresh, resolveDest_least, by decide⟩

theorem C8_witness :
    ∃ i, resolveDest ⟨[["dest", "ep1.mp3"]]⟩ "dest" "" "ep1.mp3" =
        candPath "dest" "" (preExt "ep1.mp3") (fileExt "ep1.mp3") i ∧
      FS.stat ⟨[["dest", "ep1.mp3"]]⟩
        (candPath "dest" "" (preExt "ep1.mp3") (fileExt "ep1.mp3") i) = false ∧
      ∀ j, j < i →
        FS.stat ⟨[["dest", "ep1.mp3"]]⟩
          (candPath "dest" "" (preExt "ep1.mp3") (fileExt "ep1.mp3") j) = true :=
  C8_collision_resolution.2.1 ⟨[["dest", "ep1.mp3"]]⟩ "dest" "" "ep1.mp3" (by decide)

/-- C4 counterexample: the current Scanner does not deduplicate by URL — a
feed in which the same enclosure URL appears in two item containers yields
two Items with that URL. -/
theorem C4_counterexample :
    getItems c4Toks = [⟨"u", "u", "t1"⟩, ⟨"u", "u", "t2"⟩] ∧
      ¬((getItems c4Toks).map Item.url).Nodup := by decide

/-- C4 amended: the older revision's Scanner deduplicates by URL within one
fetch — its emitted URLs are always distinct, and on the duplicate-URL feed
it emits one Item carrying the first-seen title; the current Scanner emits
one Item per item container regardless of URL duplication. -/
theorem C4_amended_dedup :
    (∀ toks : List Tok, ((getItemsV2 toks).map ItemV2.url).Nodup) ∧
    getItemsV2 c4Toks = [⟨"u", "t1"⟩] ∧
    (getItems c4Toks).length = 2 := by
  refine ⟨?_, by decide, by decide⟩
  intro toks
  exact (foldV2_inv toks ⟨[], [], "", false⟩ ⟨by simp, by simp⟩).1

/-- C5 counterexample: on a flat feed with no item containers (two
title/enclosure sibling pairs), the current Scanner emits no Items at all —
an enclosure encounter is not an item boundary for it. -/
theorem C5_counterexample :
    getItems c5Toks = [] ∧
      (c5Toks.countP (fun t => match t with
        | .startE n _ => n = "enclosure"
        | _ => false)) = 2 := by decide

/-- C5 amended: only the older revision's Scanner treats each enclosure
encounter (with an unseen URL) as an implicit item boundary, emitting an Item
that carries the pending (most recently seen) title; on the flat feed it
emits one Item per enclosure. The current Scanner emits only on leaving an
item container. -/
theorem C5_amended_flat (s : ScanStateV2) (u : String) (h : u ∉ s.seenURLs) :
    scanStepV2 s (.startE "enclosure" [("url", u)]) =
      { s with items := s.items ++ [⟨u, s.title⟩],
               seenURLs := u :: s.seenURLs, title := "" } ∧
    getItemsV2 c5Toks = [⟨"u1", "t1"⟩, ⟨"u2", "t2"⟩] := by
  refine ⟨?_, by decide⟩
  simp [scanStepV2, urlAttr, h]

theorem C5_amended_flat_witness :
    scanStepV2 ⟨[], [], "t1", false⟩ (.startE "enclosure" [("url", "u1")]) =
      ⟨[⟨"u1", "t1"⟩], ["u1"], "", false⟩ ∧
    getItemsV2 c5Toks = [⟨"u1", "t1"⟩, ⟨"u2", "t2"⟩] :=
  C5_amended_flat ⟨[], [], "t1", false⟩ "u1" (by decide)

/-- C6: on leaving an item container the current Scanner emits an Item
exactly when a URL was captured inside it, with the guid falling back to the
URL when no non-empty guid text was captured; every step only appends to the
emitted list (document order); on a sample feed, an item without a URL is
dropped and a guid-less item uses its URL as guid. -/
theorem C6_item_emission :
    (∀ s : ScanState, scanStep s (.endE "item") =
      if s.url = "" then s
      else { s with items := s.items ++
        [⟨if s.guid = "" then s.url else s.guid, s.url, s.title⟩] }) ∧
    (∀ (s : ScanState) (t : Tok), ∃ l, (scanStep s t).items = s.items ++ l) ∧
    getItems c6Toks = [⟨"gX", "u1", "T1"⟩, ⟨"u3", "u3", ""⟩] := by
  refine ⟨?_, ?_, by decide⟩
  · intro s
    rfl
  · intro s t
    have hnil : ∀ l : List Item, ∃ m : List Item, l = l ++ m :=
      fun l => ⟨[], (List.append_nil l).symm⟩
    have happ : ∀ (l : List Item) (x : Item), ∃ m : List Item, l ++ [x] = l ++ m :=
      fun l x => ⟨[x], rfl⟩
    cases t with
    | startE n attrs =>
      simp only [scanStep]
      split_ifs <;> cases urlAttr attrs <;> exact hnil _
    | endE n =>
      simp only [scanStep]
      split_ifs <;> first | exact hnil _ | exact happ _ _
    | chardata d =>
      simp only [scanStep]
      split_ifs <;> exact hnil _

/-- C7: the derived name is the URL's path-basename with the query string
stripped (`ep1.mp3` for the example URL, whatever the guid and title); for
URLs embedding `/episodes/<UUID>/` the non-empty title (plus `.mp3`) or the
UUID (plus `.mp3`) is preferred; and `downloadItem` fails with a naming error
exactly when the derived name is empty, `.`, or `..`. -/
theorem C7_filename_derivation :
    (∀ g t : String,
      deriveBase ⟨g, "https://example.com/show/ep1.mp3?x=1", t⟩ = "ep1.mp3") ∧
    deriveBase ⟨"", podtracURL, "Ep 12: Foo"⟩ = "Ep 12: Foo.mp3" ∧
    deriveBase ⟨"", podtracURL, ""⟩ =
      "4a49fb56-5d6d-4800-8b83-72047d6b81e7.mp3" ∧
    (∀ (it : Item) (dd feed pre : String) (sk : Bool) (env : Env) (fs : FS),
      (downloadItem it dd feed pre sk env fs).res = some DLErr.naming ↔
        (deriveBase it = "" ∨ deriveBase it = "." ∨ deriveBase it = "..")) := by
  refine ⟨?_, by decide, by decide, ?_⟩
  · intro g t
    have hnone : findEpisodeID ("https://example.com/show/ep1.mp3?x=1").data =
        none := by decide
    simp only [deriveBase, hnone]
    decide
  · intro it dd feed pre sk env fs
    constructor
    · intro h
      unfold downloadItem at h
      split_ifs at h with h1
      · exact h1
      · exact absurd h (by simp)
      · exact absurd h (seenPhase_res_not_naming it dd feed pre sk env fs _)
    · intro h
      unfold downloadItem
      rw [if_pos h]

theorem C7_witness :
    (downloadItem ⟨"g", "", ""⟩ "d" "f" "" false envAll ⟨[]⟩).res =
      some DLErr.naming :=
  (C7_filename_derivation.2.2.2 ⟨"g", "", ""⟩ "d" "f" "" false envAll
    ⟨[]⟩).mpr (by decide)

/-- C9: a missing `-feed` flag or a feed fetch/parse failure is fatal with no
item processed; when the feed is read, the run is never fatal and every item
up to the `-num` cap gets processed (errors logged, processing continuing),
whatever the per-item outcomes are. -/
theorem C9_error_propagation :
    (∀ (fr : FeedResult) (dest pre : String) (sk : Bool) (num : Int)
        (env : Env) (fs : FS),
      mainRun "" fr dest pre sk num env fs = ⟨true, []⟩) ∧
    (∀ (ff dest pre : String) (sk : Bool) (num : Int) (env : Env) (fs : FS),
      mainRun ff .fetchFail dest pre sk num env fs = ⟨true, []⟩ ∧
      mainRun ff .parseFail dest pre sk num env fs = ⟨true, []⟩) ∧
    (∀ (ff : String) (toks : List Tok) (dest pre : String) (sk : Bool)
        (num : Int) (env : Env) (fs : FS), ff ≠ "" →
      (mainRun ff (.ok toks) dest pre sk num env fs).fatal = false ∧
      (mainRun ff (.ok toks) dest pre sk num env fs).results.length =
        (if 0 ≤ num then min num.toNat (getItems toks).length
         else (getItems toks).length)) := by
  refine ⟨?_, ?_, ?_⟩
  · intro fr dest pre sk num env fs
    rfl
  · intro ff dest pre sk num env fs
    constructor <;> (unfold mainRun; split_ifs <;> rfl)
  · intro ff toks dest pre sk num env fs hff
    unfold mainRun
    rw [if_neg hff]
    refine ⟨rfl, ?_⟩
    show (List.map _ (runSeq dest ff pre (List.map _
      (if 0 ≤ num then (getItems toks).take num.toNat else getItems toks)) fs)).length = _
    rw [List.length_map, runSeq_length, List.length_map]
    split_ifs
    · rw [List.length_take]
    · rfl

theorem C9_witness :
    (mainRun "f" (.ok c4Toks) "d" "" false (-1) envNoFetch ⟨[]⟩).fatal = false ∧
    (mainRun "f" (.ok c4Toks) "d" "" false (-1) envNoFetch ⟨[]⟩).results.length
      = 2 := by
  have h := C9_error_propagation.2.2 "f" c4Toks "d" "" false (-1) envNoFetch
    ⟨[]⟩ (by decide)
  refine ⟨h.1, ?_⟩
  rw [h.2]
  decide

set_option maxRecDepth 100000 in
/-- C10: `escape` truncates to at most 255 characters, so it is not
injective: the two distinct guids `guidA` and `guidB` share one marker path,
and after an item with guid `guidA` is marked seen, an item with guid
`guidB` (a different URL, never downloaded) is treated as already done —
no fetch, success returned. -/
theorem C10_escape_truncation :
    (∀ s : String, (escape s).length ≤ 255) ∧
    guidA ≠ guidB ∧
    escape guidA = escape guidB ∧
    (downloadItem ⟨guidB, "u2", ""⟩ "d" "f" "" false envAll
        (downloadItem ⟨guidA, "u1", ""⟩ "d" "f" "" true envAll ⟨[]⟩).fs).fetched
      = false ∧
    (downloadItem ⟨guidB, "u2", ""⟩ "d" "f" "" false envAll
        (downloadItem ⟨guidA, "u1", ""⟩ "d" "f" "" true envAll ⟨[]⟩).fs).res
      = none := by
  refine ⟨?_, by decide, by decide, by decide, by decide⟩
  intro s
  unfold escape
  split_ifs with h
  · rw [asciiStr_length, List.length_take]
    simp [maxFilenameLen]
  · rw [asciiStr_length]
    simp only [maxFilenameLen] at h
    omega

end DlPod
